import Mathlib

/- Verification of the gargs parallel command runner (main.go and
process/process.go) against its specification. Byte strings are
modelled as lists of naturals; opaque error values and command strings
are identified by numeric ids where only their identity matters. None
of the modelled quantities can overflow a machine integer. -/

namespace Gargs

/- Record scanner: the custom split function installed by getScanner
when the RS environment variable is non-empty (main.go lines 108-129).
bufio.Scanner repeatedly applies the split function to the buffered
data, requesting more input until a match or end of input; on a match
at index i the function advances i+1 bytes and emits the token
data[:i+len(rs)], and at end of input the remainder is emitted as a
final token. findSub is bytes.Index. scanRSAux carries the remaining
input length as explicit fuel so the recursion is structural; scanRS
supplies data.length, which bounds the number of records because every
step consumes at least one byte. -/

def findSubAux (sep : List Nat) : List Nat → Option Nat
  | [] => none
  | x :: xs =>
    if (x :: xs).take sep.length = sep then some 0
    else (findSubAux sep xs).map (fun i => i + 1)

def findSub (sep data : List Nat) : Option Nat :=
  if sep = [] then some 0 else findSubAux sep data

def scanRSAux (sep : List Nat) : Nat → List Nat → List (List Nat)
  | _, [] => []
  | 0, _ :: _ => []
  | fuel + 1, x :: xs =>
    match findSub sep (x :: xs) with
    | some i => (x :: xs).take (i + sep.length) :: scanRSAux sep fuel (xs.drop i)
    | none => [x :: xs]

def scanRS (sep data : List Nat) : List (List Nat) :=
  scanRSAux sep data.length data

/- Configuration validation (main.go lines 59-68). Params is
initialised with Procs = 1 and Nlines = 1. The string-valued -s flag is
modelled by the equivalence classes the code distinguishes: unset (the
empty string), the whitespace expression assigned by the defaulting
rule, or any other user-supplied expression identified by a numeric
id. -/

inductive SepChoice where
  | unset
  | whitespace
  | custom (id : Nat)
deriving DecidableEq, Repr

inductive ConfigOutcome where
  | fail
  | proceed (sep : SepChoice) (nlines : Nat)
deriving DecidableEq, Repr

def validateModes (sep : SepChoice) (nlines : Nat) : ConfigOutcome :=
  if sep ≠ SepChoice.unset ∧ 1 < nlines then ConfigOutcome.fail
  else if nlines = 1 ∧ sep = SepChoice.unset then
    ConfigOutcome.proceed SepChoice.whitespace nlines
  else ConfigOutcome.proceed sep nlines

/- Output drain (main.go run, lines 215-245). The global ExitCode
starts at 0; for each arriving result whose exit code is non-zero the
counter is replaced by its max with that code (line 219, max defined at
lines 190-195), and with stop-on-error set the loop breaks right after
that update. drainExit folds this loop over the exit codes the drain
observes, in arrival order. -/

def drainExit (stopOnError : Bool) : List Nat → Nat → Nat
  | [], acc => acc
  | e :: rest, acc =>
    if e ≠ 0 then
      if stopOnError then max acc e
      else drainExit stopOnError rest (max acc e)
    else drainExit stopOnError rest acc

/- Exit-code derivation (process.go lines 91-102) and the error field
written by oneRun after cmd.Wait (lines 229-237). Go error values are
modelled by the only shape the code inspects: exitErr is an
exec.ExitError carrying the wait status of an exited child, plain is
any other error (callback errors, launch errors), identified by a
numeric id. afterWait models the statement: when Wait returned nil and
a callback was supplied, a value received from the callback error
channel replaces the nil error; otherwise the Wait error is kept. -/

def UnknownExit : Nat := 1

inductive GoErr where
  | exitErr (status : Nat)
  | plain (id : Nat)
deriving DecidableEq, Repr

def ExitCode : Option GoErr → Nat
  | none => 0
  | some (GoErr.exitErr st) => st
  | some (GoErr.plain _) => UnknownExit

def afterWait (waitErr : Option GoErr) (hasCallback : Bool)
    (cbErr : Option Nat) : Option GoErr :=
  match waitErr, hasCallback with
  | none, true => cbErr.map GoErr.plain
  | w, _ => w

/- Output capture (process.go lines 219-247). The stdout pipe is
wrapped in a buffered reader whose capacity is BufferSize and
Peek(BufferSize) is attempted on the child stream, modelled as the byte
list out followed by end of file. Peek fills until BufferSize bytes are
buffered or the stream ends: with at least BufferSize bytes available
it returns BufferSize bytes and a nil error, otherwise everything read
together with io.EOF; ErrBufferFull cannot arise because the peek size
equals the buffer capacity. The branch on the peek error decides the
path: ErrBufferFull or io.EOF take the in-memory path, a nil error
falls through to the temp-file path. -/

def BufferSize : Nat := 1048576

inductive PeekErr where
  | eof
  | bufferFull
deriving DecidableEq, Repr

def peekFull (out : List Nat) (n : Nat) : List Nat × Option PeekErr :=
  if n ≤ out.length then (out.take n, none) else (out, some PeekErr.eof)

inductive CapturePath where
  | memory
  | tempFile
deriving DecidableEq, Repr

def capturePathB (bufSize : Nat) (out : List Nat) : CapturePath :=
  match (peekFull out bufSize).2 with
  | some PeekErr.eof => CapturePath.memory
  | some PeekErr.bufferFull => CapturePath.memory
  | none => CapturePath.tempFile

def capturePath (out : List Nat) : CapturePath :=
  capturePathB BufferSize out

/- Retry loop of Run (process.go lines 133-155). oneRun is abstracted
by an oracle att giving the outcome of the k-th fresh execution of the
same command string: exit code, captured stdout and the wall-clock span
of that attempt. Attempts run back to back and Run stamps the returned
result with time.Since of the instant recorded before the first
attempt, modelled as the sum of the spans of the attempts performed.
runAux mirrors the loop: after an attempt, while retries remain and the
exit code is non-zero, run the command again. finalIdx computes the
index of the attempt whose result is returned and durSum att k c sums
the spans of the c attempts starting at index k. att3 is a concrete
oracle whose attempts exit 1, 2, 0. -/

structure Attempt where
  exit : Nat
  stdout : List Nat
  dur : Nat
deriving DecidableEq, Repr

def runAux (att : Nat → Attempt) : Nat → Nat → Nat × Attempt
  | k, 0 => ((att k).dur, att k)
  | k, r + 1 =>
    if (att k).exit ≠ 0 then
      ((att k).dur + (runAux att (k + 1) r).1, (runAux att (k + 1) r).2)
    else ((att k).dur, att k)

def Run (att : Nat → Attempt) (retries : Nat) : Attempt :=
  { (runAux att 0 retries).2 with dur := (runAux att 0 retries).1 }

def finalIdx (att : Nat → Attempt) : Nat → Nat → Nat
  | k, 0 => k
  | k, r + 1 => if (att k).exit ≠ 0 then finalIdx att (k + 1) r else k

def durSum (att : Nat → Attempt) : Nat → Nat → Nat
  | _, 0 => 0
  | k, c + 1 => (att k).dur + durSum att (k + 1) c

def att3 : Nat → Attempt
  | 0 => { exit := 1, stdout := [9], dur := 4 }
  | 1 => { exit := 2, stdout := [8], dur := 5 }
  | _ => { exit := 0, stdout := [7], dur := 6 }

/- Temp-file lifecycle (process.go: Close lines 58-64, Cleanup and
cleanup lines 104-115, newCommand lines 117-123). A Command either has
no backing temp file (in-memory capture, tmp == nil) or one file with a
closed and a removed flag. os.File.Close on an already closed file
returns an error, which closeCmd reports in its second component and
which the cleanup helper discards; os.Remove unlinks the file. Cleanup
with tmp == nil does nothing; with a temp file it calls Close and then
the cleanup helper, which closes again and removes the file. -/

structure TmpFile where
  closed : Bool
  removed : Bool
deriving DecidableEq, Repr

structure CmdHandle where
  tmp : Option TmpFile
deriving DecidableEq, Repr

def closeCmd (c : CmdHandle) : CmdHandle × Bool :=
  match c.tmp with
  | none => (c, false)
  | some f => ({ tmp := some { f with closed := true } }, f.closed)

def cleanupFile (c : CmdHandle) : CmdHandle :=
  match c.tmp with
  | none => c
  | some _ => { tmp := some { closed := true, removed := true } }

def Cleanup (c : CmdHandle) : CmdHandle :=
  match c.tmp with
  | none => c
  | some _ => cleanupFile (closeCmd c).1

/- Worker loop of the unordered Runner (process.go lines 373-390). For
each command pulled from icommands the worker evaluates Run to
completion, because the value of a send case is evaluated on entry to
the select; the select then either publishes the result on stdout or
receives from cancel. The cancel arm closes stdout and executes break,
which in Go terminates only the innermost select, so the for loop
continues with the next command. cancelTaken says which ready arm the
scheduler picks at the k-th select (the cancel arm can only be ready
once cancel has fired); a send on a closed channel and a close of a
closed channel both panic, aborting the goroutine. Commands are
numeric ids and stdoutClosed tracks whether stdout has been closed. -/

inductive Ev where
  | ran (i : Nat)
  | published (i : Nat)
  | sawCancel
  | closedStdout
  | panicked
deriving DecidableEq, Repr

def workerLoop (cancelTaken : Nat → Bool) : List Nat → Nat → Bool → List Ev
  | [], _, _ => []
  | _ :: rest, k, stdoutClosed =>
    Ev.ran k ::
      (if cancelTaken k then
        if stdoutClosed then [Ev.sawCancel, Ev.panicked]
        else Ev.sawCancel :: Ev.closedStdout :: workerLoop cancelTaken rest (k + 1) true
      else
        if stdoutClosed then [Ev.panicked]
        else Ev.published k :: workerLoop cancelTaken rest (k + 1) stdoutClosed)

/- Ordered pipeline (process.go: enumerate lines 284-303, oRun lines
157-163, oRunner lines 400-436). enumerate allocates a fresh
single-shot channel per command and sends it on the bounded istdout
queue, whose capacity is WaitingMultiplier times GOMAXPROCS, before
handing the indexed command to a worker; a worker that finishes a
command delivers the result on that command's own channel; the drain
goroutine pops channels from istdout in FIFO order, holds the popped
channel while it blocks for that command's result, and forwards the
result to stdout. States record the emission count (indices 0 ..
emitted-1 have been emitted), the istdout buffer contents as command
indices in FIFO order, the channel the drain currently holds, the set
of indices whose worker has delivered, and the forwarded output.
Worker scheduling, and hence any pool size, only selects among
complete steps and their order, so every run of the Go code for any
GOMAXPROCS value is a trace of this relation. -/

def WaitingMultiplier : Nat := 4

def oRunnerQueueCap (gomaxprocs : Nat) : Nat := WaitingMultiplier * gomaxprocs

def runnerChanCap (gomaxprocs : Nat) : Nat := gomaxprocs

structure OSt where
  emitted : Nat
  queue : List Nat
  held : Option Nat
  done : List Nat
  output : List Nat
deriving DecidableEq, Repr

inductive OStep (n cap : Nat) : OSt → OSt → Prop
  | emit (e : Nat) (q : List Nat) (hl : Option Nat) (d o : List Nat)
      (he : e < n) (hcap : q.length < cap) :
      OStep n cap ⟨e, q, hl, d, o⟩ ⟨e + 1, q ++ [e], hl, d, o⟩
  | complete (e : Nat) (q : List Nat) (hl : Option Nat) (d o : List Nat)
      (j : Nat) (hj : j < e) (hd : j ∉ d) :
      OStep n cap ⟨e, q, hl, d, o⟩ ⟨e, q, hl, j :: d, o⟩
  | pop (e i : Nat) (rest : List Nat) (d o : List Nat) :
      OStep n cap ⟨e, i :: rest, none, d, o⟩ ⟨e, rest, some i, d, o⟩
  | forward (e : Nat) (q : List Nat) (i : Nat) (d o : List Nat)
      (hi : i ∈ d) :
      OStep n cap ⟨e, q, some i, d, o⟩ ⟨e, q, none, d, o ++ [i]⟩

abbrev OInit : OSt :=
  { emitted := 0, queue := [], held := none, done := [], output := [] }

abbrev OReach (n cap : Nat) (s : OSt) : Prop :=
  Relation.ReflTransGen (OStep n cap) OInit s

/- Helper lemmas about the drain fold. -/

theorem drainExit_eq_foldl (codes : List Nat) (acc : Nat) :
    drainExit false codes acc = codes.foldl max acc := by
  induction codes generalizing acc with
  | nil => rfl
  | cons e rest ih =>
    by_cases he : e = 0
    · subst he
      simp [drainExit, ih]
    · simp [drainExit, he, ih]

theorem le_foldl_max (l : List Nat) (acc : Nat) : acc ≤ l.foldl max acc := by
  induction l generalizing acc with
  | nil => exact Nat.le_refl acc
  | cons e rest ih => exact Nat.le_trans (Nat.le_max_left acc e) (ih (max acc e))

theorem drainExit_mono (s : Bool) (codes : List Nat) (acc : Nat) :
    acc ≤ drainExit s codes acc := by
  induction codes generalizing acc with
  | nil => exact Nat.le_refl acc
  | cons e rest ih =>
    by_cases he : e = 0
    · subst he
      simpa [drainExit] using ih acc
    · cases s with
      | false =>
        simp only [drainExit, he, if_true, if_neg, Bool.false_eq_true, ite_false,
          ne_eq, not_false_eq_true, if_pos]
        exact Nat.le_trans (Nat.le_max_left acc e) (ih (max acc e))
      | true =>
        simp only [drainExit, he, ne_eq, not_false_eq_true, if_pos, if_true]
        exact Nat.le_max_left acc e

/-- Claim C2: the worst-exit-code counter starts at 0, is never changed
by a zero exit code, only grows by taking max with each non-zero exit
code the drain observes (so it is monotonically non-decreasing over the
run, and over prefixes of the observed results), and the process exit
code, its final value, is the maximum over all observed child exit
codes, 0 when every command succeeded. -/
theorem worst_exit_code_max :
    (∀ s codes acc, acc ≤ drainExit s codes acc) ∧
    (∀ s codes acc, drainExit s (0 :: codes) acc = drainExit s codes acc) ∧
    (∀ codes, drainExit false codes 0 = codes.foldl max 0) ∧
    (∀ codes k, drainExit false (codes.take k) 0 ≤ drainExit false codes 0) := by
  refine ⟨drainExit_mono, ?_, fun codes => drainExit_eq_foldl codes 0, ?_⟩
  · intro s codes acc
    simp [drainExit]
  · intro codes k
    rw [drainExit_eq_foldl, drainExit_eq_foldl]
    conv_rhs => rw [← List.take_append_drop k codes]
    rw [List.foldl_append]
    exact le_foldl_max _ _

/-- Claim C9: split mode and N-line mode are mutually exclusive: any
configuration with a split expression set and more than one line per
command fails before execution, and when neither mode is set the
configuration proceeds with the whitespace split expression. -/
theorem sep_nlines_mutually_exclusive :
    (∀ sep n, sep ≠ SepChoice.unset → 1 < n →
      validateModes sep n = ConfigOutcome.fail) ∧
    validateModes SepChoice.unset 1 =
      ConfigOutcome.proceed SepChoice.whitespace 1 := by
  constructor
  · intro sep n hs hn
    simp [validateModes, hs, hn]
  · rfl

/-- Witness for claim C9 at a concrete custom split expression with two
lines per command, and at the default configuration. -/
theorem sep_nlines_mutually_exclusive_witness :
    validateModes (SepChoice.custom 0) 2 = ConfigOutcome.fail ∧
    validateModes SepChoice.unset 1 =
      ConfigOutcome.proceed SepChoice.whitespace 1 :=
  ⟨sep_nlines_mutually_exclusive.1 (SepChoice.custom 0) 2 (by decide) (by decide),
   sep_nlines_mutually_exclusive.2⟩

/-- Claim C5 counterexample: a child whose Wait returned nil (exit code
0) combined with a failing callback yields a Command whose Err is the
callback error but whose ExitCode() is the UnknownExit sentinel 1, not
the 0 the child returned as the claim states. -/
theorem callback_error_exit_code_counterexample :
    afterWait none true (some 7) = some (GoErr.plain 7) ∧
    ExitCode (afterWait none true (some 7)) ≠ 0 :=
  ⟨rfl, by decide⟩

/-- Claim C5 amended: if the child exits 0 and the callback fails, the
Err field is populated with the callback error, but because that error
is not an exec.ExitError the reported exit code is the UnknownExit
sentinel 1, not the child's 0; a successful callback leaves the nil
error in place, and when the child exits non-zero the Wait error is
kept and the callback result is not consulted. -/
theorem callback_error_sets_unknown_exit :
    ∀ cb : Nat,
      afterWait none true (some cb) = some (GoErr.plain cb) ∧
      ExitCode (afterWait none true (some cb)) = UnknownExit ∧
      afterWait none true none = none ∧
      (∀ w cbe, afterWait (some w) true cbe = some w) := by
  intro cb
  exact ⟨rfl, rfl, rfl, fun w cbe => rfl⟩

theorem capture_tempFile_of_le {b : Nat} {out : List Nat} (h : b ≤ out.length) :
    capturePathB b out = CapturePath.tempFile := by
  simp [capturePathB, peekFull, h]

theorem capture_memory_of_lt {b : Nat} {out : List Nat} (h : ¬ b ≤ out.length) :
    capturePathB b out = CapturePath.memory := by
  simp [capturePathB, peekFull, h]

/-- Claim C4 counterexample: a child stdout of exactly BufferSize bytes
takes the temp-file path, not the in-memory path the claim asserts for
the boundary case. -/
theorem capture_boundary_counterexample :
    capturePath (List.replicate BufferSize 0) = CapturePath.tempFile ∧
    capturePath (List.replicate BufferSize 0) ≠ CapturePath.memory := by
  have h : capturePath (List.replicate BufferSize 0) = CapturePath.tempFile := by
    unfold capturePath
    apply capture_tempFile_of_le
    rw [List.length_replicate]
  exact ⟨h, by simp [h]⟩

/-- Claim C4 amended: output capture takes the in-memory path exactly
when the child stdout is strictly smaller than BufferSize bytes; at
exactly BufferSize bytes and above, Peek returns a nil error and the
temp-file path is taken. -/
theorem capture_memory_iff_lt_buffer (out : List Nat) :
    (capturePath out = CapturePath.memory ↔ out.length < BufferSize) ∧
    (capturePath out = CapturePath.tempFile ↔ BufferSize ≤ out.length) := by
  by_cases h : BufferSize ≤ out.length
  · rw [capturePath, capture_tempFile_of_le h]
    constructor
    · constructor
      · intro he
        exact absurd he (by simp)
      · intro hlt
        omega
    · simp [h]
  · rw [capturePath, capture_memory_of_lt h]
    constructor
    · simp
      omega
    · constructor
      · intro he
        exact absurd he (by simp)
      · intro hle
        omega

/- Helper lemmas about the retry loop. -/

theorem finalIdx_ge (att : Nat → Attempt) :
    ∀ r k, k ≤ finalIdx att k r := by
  intro r
  induction r with
  | zero =>
    intro k
    exact Nat.le_refl k
  | succ r ih =>
    intro k
    by_cases h : (att k).exit = 0
    · simp [finalIdx, h]
    · simp only [finalIdx, h, ne_eq, not_false_eq_true, if_pos]
      exact Nat.le_trans (Nat.le_succ k) (ih (k + 1))

theorem finalIdx_le (att : Nat → Attempt) :
    ∀ r k, finalIdx att k r ≤ k + r := by
  intro r
  induction r with
  | zero =>
    intro k
    exact Nat.le_refl k
  | succ r ih =>
    intro k
    by_cases h : (att k).exit = 0
    · simp only [finalIdx, h, ne_eq, not_true_eq_false, if_neg, ite_false]
      omega
    · simp only [finalIdx, h, ne_eq, not_false_eq_true, if_pos]
      have := ih (k + 1)
      omega

theorem finalIdx_fails (att : Nat → Attempt) :
    ∀ r k j, k ≤ j → j < finalIdx att k r → (att j).exit ≠ 0 := by
  intro r
  induction r with
  | zero =>
    intro k j hkj hlt
    simp only [finalIdx] at hlt
    omega
  | succ r ih =>
    intro k j hkj hlt
    by_cases h : (att k).exit = 0
    · simp [finalIdx, h] at hlt
      omega
    · simp only [finalIdx, h, ne_eq, not_false_eq_true, if_pos] at hlt
      rcases Nat.eq_or_lt_of_le hkj with heq | hk
      · rw [← heq]
        exact h
      · exact ih (k + 1) j hk hlt

theorem finalIdx_stop (att : Nat → Attempt) :
    ∀ r k, (att (finalIdx att k r)).exit = 0 ∨ finalIdx att k r = k + r := by
  intro r
  induction r with
  | zero =>
    intro k
    right
    simp [finalIdx]
  | succ r ih =>
    intro k
    by_cases h : (att k).exit = 0
    · left
      simp [finalIdx, h]
    · simp only [finalIdx, h, ne_eq, not_false_eq_true, if_pos]
      rcases ih (k + 1) with h0 | heq
      · left
        exact h0
      · right
        omega

theorem runAux_eq (att : Nat → Attempt) :
    ∀ r k, runAux att k r =
      (durSum att k (finalIdx att k r + 1 - k), att (finalIdx att k r)) := by
  intro r
  induction r with
  | zero =>
    intro k
    simp [runAux, finalIdx, Nat.add_sub_cancel_left, durSum]
  | succ r ih =>
    intro k
    by_cases h : (att k).exit = 0
    · simp [runAux, finalIdx, h, Nat.add_sub_cancel_left, durSum]
    · have hm : k + 1 ≤ finalIdx att (k + 1) r := finalIdx_ge att r (k + 1)
      have harith : finalIdx att (k + 1) r + 1 - k =
          (finalIdx att (k + 1) r + 1 - (k + 1)) + 1 := by omega
      simp only [runAux, finalIdx, h, ne_eq, not_false_eq_true, if_pos, ih (k + 1)]
      rw [harith]
      simp [durSum]

/-- Claim C3: under retry budget R the same command is re-executed
afresh while attempts fail and retries remain; the returned result is
the final attempt's result (the first attempt with exit code 0, or the
R+1st attempt when all fail), and its Duration is the total wall-clock
span from the start of the first attempt through the final exit, the
sum of the spans of all performed attempts. In particular an attempt
sequence exiting nonzero, nonzero, zero under two retries produces
exactly one result whose exit code is 0, whose stdout is the third
attempt's stdout, and whose duration spans all three attempts. -/
theorem run_returns_final_attempt (att : Nat → Attempt) (retries : Nat) :
    (∃ m, m ≤ retries ∧ (∀ j, j < m → (att j).exit ≠ 0) ∧
      ((att m).exit = 0 ∨ m = retries) ∧
      (Run att retries).exit = (att m).exit ∧
      (Run att retries).stdout = (att m).stdout ∧
      (Run att retries).dur = durSum att 0 (m + 1)) ∧
    ((att 0).exit ≠ 0 → (att 1).exit ≠ 0 → (att 2).exit = 0 →
      (Run att 2).exit = 0 ∧ (Run att 2).stdout = (att 2).stdout ∧
      (Run att 2).dur = (att 0).dur + (att 1).dur + (att 2).dur) := by
  constructor
  · refine ⟨finalIdx att 0 retries, ?_, ?_, ?_, ?_, ?_, ?_⟩
    · have := finalIdx_le att retries 0
      omega
    · intro j hj
      exact finalIdx_fails att retries 0 j (Nat.zero_le j) hj
    · rcases finalIdx_stop att retries 0 with h0 | heq
      · exact Or.inl h0
      · right
        omega
    · simp [Run, runAux_eq att retries 0]
    · simp [Run, runAux_eq att retries 0]
    · simp [Run, runAux_eq att retries 0]
  · intro h0 h1 h2
    have hf : finalIdx att 0 2 = 2 := by
      simp [finalIdx, h0, h1]
    have hr := runAux_eq att 2 0
    rw [hf] at hr
    refine ⟨?_, ?_, ?_⟩
    · simp [Run, hr, h2]
    · simp [Run, hr]
    · simp [Run, hr, durSum]
      omega

/-- Witness for claim C3: the concrete oracle att3 fails twice with
exit codes 1 and 2 and then succeeds, so Run with two retries returns
the third attempt's stdout with exit code 0 and a duration spanning all
three attempts. -/
theorem run_returns_final_attempt_witness :
    (Run att3 2).exit = 0 ∧ (Run att3 2).stdout = (att3 2).stdout ∧
    (Run att3 2).dur = (att3 0).dur + (att3 1).dur + (att3 2).dur :=
  (run_returns_final_attempt att3 2).2 (by decide) (by decide) (by decide)

/-- Claim C10: a Command captured in memory has no backing temp file,
so Close returns nil and changes nothing and Cleanup is a no-op, while
a Command backed by a temp file has Cleanup close the file and remove
it from disk; Cleanup is total and safe on both capture paths. -/
theorem cleanup_close_semantics (c : CmdHandle) :
    (c.tmp = none → closeCmd c = (c, false) ∧ Cleanup c = c) ∧
    (∀ f, c.tmp = some f →
      (Cleanup c).tmp = some { closed := true, removed := true }) := by
  constructor
  · intro h
    obtain ⟨t⟩ := c
    cases t with
    | none => exact ⟨rfl, rfl⟩
    | some f => cases h
  · intro f h
    obtain ⟨t⟩ := c
    cases t with
    | none => cases h
    | some g => rfl

/-- Witness for claim C10 at a memory-captured Command and at a
Command backed by a still-open, still-present temp file. -/
theorem cleanup_close_semantics_witness :
    (closeCmd { tmp := none } = ({ tmp := none }, false) ∧
      Cleanup { tmp := none } = { tmp := none }) ∧
    (Cleanup { tmp := some { closed := false, removed := false } }).tmp =
      some { closed := true, removed := true } :=
  ⟨(cleanup_close_semantics { tmp := none }).1 rfl,
   (cleanup_close_semantics { tmp := some { closed := false, removed := false } }).2
     { closed := false, removed := false } rfl⟩

/-- Claim C6 failing trace: with two queued commands and the scheduler
taking the ready cancel arm at the first publication point, the worker
closes stdout, but its break leaves only the select, so the loop pulls
the second command and starts a new child after having observed
cancellation, then panics sending on the closed channel; the code's own
comment says the worker must exit there. -/
theorem cancel_starts_new_child :
    workerLoop (fun k => k == 0) [11, 22] 0 false =
      [Ev.ran 0, Ev.sawCancel, Ev.closedStdout, Ev.ran 1, Ev.panicked] := by
  rfl

/-- Claim C7 failing input: with record separator ab (bytes 97 98) and
input xaby (bytes 120 97 98 121), the scanner emits the records xab and
by, because a match at index i advances only i+1 bytes while the token
carries i+len(RS) bytes; their concatenation xabby duplicates the byte
98 and differs from the input. -/
theorem rs_split_duplicates_bytes :
    scanRS [97, 98] [120, 97, 98, 121] = [[120, 97, 98], [98, 121]] ∧
    (scanRS [97, 98] [120, 97, 98, 121]).flatten = [120, 97, 98, 98, 121] ∧
    (scanRS [97, 98] [120, 97, 98, 121]).flatten ≠ [120, 97, 98, 121] := by
  decide

/- Invariant of the ordered pipeline: the forwarded output, the channel
the drain holds and the istdout buffer always concatenate to the full
emission order, the buffer never exceeds its capacity, and at most n
commands are ever emitted. -/

theorem oreach_inv {n cap : Nat} {s : OSt} (h : OReach n cap s) :
    s.output ++ s.held.toList ++ s.queue = List.range s.emitted ∧
    s.queue.length ≤ cap ∧ s.emitted ≤ n := by
  induction h with
  | refl => simp [OInit]
  | tail hr hstep ih =>
    cases hstep with
    | emit e q hl d o he hcap =>
      obtain ⟨h1, h2, h3⟩ := ih
      dsimp only at h1 h2 h3 ⊢
      refine ⟨?_, ?_, ?_⟩
      · rw [List.range_succ, ← h1]
        simp [List.append_assoc]
      · simp only [List.length_append, List.length_singleton]
        omega
      · omega
    | complete e q hl d o j hj hd =>
      exact ih
    | pop e i rest d o =>
      obtain ⟨h1, h2, h3⟩ := ih
      dsimp only at h1 h2 h3 ⊢
      refine ⟨?_, ?_, ?_⟩
      · simp only [Option.toList_none, Option.toList_some] at h1 ⊢
        rw [← h1]
        simp
      · simp only [List.length_cons] at h2
        omega
      · exact h3
    | forward e q i d o hi =>
      obtain ⟨h1, h2, h3⟩ := ih
      dsimp only at h1 h2 h3 ⊢
      refine ⟨?_, ?_, ?_⟩
      · simp only [Option.toList_none, Option.toList_some] at h1 ⊢
        rw [← h1]
        simp
      · exact h2
      · exact h3

/-- Claim C1: in a completed ordered-mode run (all n commands emitted,
istdout drained and no channel still held) the forwarded output is
exactly the emission order 0 .. n-1, so all stdout bytes of command i
reach the final sink before any byte of command j whenever i precedes
j, whatever order workers completed the commands in; and any other
completed run over any queue capacity, hence any worker count, forwards
the same output. -/
theorem ordered_output_independent (n cap : Nat) (s : OSt) (h : OReach n cap s)
    (hq : s.queue = []) (hh : s.held = none) (he : s.emitted = n) :
    s.output = List.range n ∧
    (∀ f : Nat → List Nat,
      (s.output.map f).flatten = ((List.range n).map f).flatten) ∧
    (∀ cap2 s2, OReach n cap2 s2 → s2.queue = [] → s2.held = none →
      s2.emitted = n → s2.output = s.output) := by
  have key : ∀ cap2 s2, OReach n cap2 s2 → s2.queue = [] → s2.held = none →
      s2.emitted = n → s2.output = List.range n := by
    intro cap2 s2 h2 hq2 hh2 he2
    have h1 := (oreach_inv h2).1
    rw [hq2, hh2, he2] at h1
    simpa using h1
  have hout := key cap s h hq hh he
  refine ⟨hout, ?_, ?_⟩
  · intro f
    rw [hout]
  · intro cap2 s2 h2 hq2 hh2 he2
    rw [key cap2 s2 h2 hq2 hh2 he2, hout]

/-- Witness for claim C1: a concrete completed trace with two commands
in which the second command finishes before the first. -/
theorem ordered_output_independent_witness :
    OSt.output ⟨2, [], none, [0, 1], [0, 1]⟩ = List.range 2 := by
  have h0 : OReach 2 4 ⟨0, [], none, [], []⟩ := Relation.ReflTransGen.refl
  have h1 : OReach 2 4 ⟨1, [0], none, [], []⟩ :=
    Relation.ReflTransGen.tail h0 (OStep.emit 0 [] none [] [] (by decide) (by decide))
  have h2 : OReach 2 4 ⟨2, [0, 1], none, [], []⟩ :=
    Relation.ReflTransGen.tail h1 (OStep.emit 1 [0] none [] [] (by decide) (by decide))
  have h3 : OReach 2 4 ⟨2, [0, 1], none, [1], []⟩ :=
    Relation.ReflTransGen.tail h2
      (OStep.complete 2 [0, 1] none [] [] 1 (by decide) (by decide))
  have h4 : OReach 2 4 ⟨2, [0, 1], none, [0, 1], []⟩ :=
    Relation.ReflTransGen.tail h3
      (OStep.complete 2 [0, 1] none [1] [] 0 (by decide) (by decide))
  have h5 : OReach 2 4 ⟨2, [1], some 0, [0, 1], []⟩ :=
    Relation.ReflTransGen.tail h4 (OStep.pop 2 0 [1] [0, 1] [])
  have h6 : OReach 2 4 ⟨2, [1], none, [0, 1], [0]⟩ :=
    Relation.ReflTransGen.tail h5 (OStep.forward 2 [1] 0 [0, 1] [] (by decide))
  have h7 : OReach 2 4 ⟨2, [], some 1, [0, 1], [0]⟩ :=
    Relation.ReflTransGen.tail h6 (OStep.pop 2 1 [] [0, 1] [0])
  have h8 : OReach 2 4 ⟨2, [], none, [0, 1], [0, 1]⟩ :=
    Relation.ReflTransGen.tail h7 (OStep.forward 2 [] 1 [0, 1] [0] (by decide))
  exact (ordered_output_independent 2 4 _ h8 rfl rfl rfl).1

/-- Claim C8: in ordered mode the istdout queue of per-command
single-shot channels is created with, and never exceeds,
WaitingMultiplier times P slots, WaitingMultiplier being 4, bounding
the completed-but-unreleased results waiting behind a slower
predecessor; in unordered mode the result channel has capacity exactly
P. -/
theorem ordered_queue_bounded (p n : Nat) (s : OSt)
    (h : OReach n (oRunnerQueueCap p) s) :
    s.queue.length ≤ WaitingMultiplier * p ∧
    oRunnerQueueCap p = 4 * p ∧
    runnerChanCap p = p :=
  ⟨(oreach_inv h).2.1, rfl, rfl⟩

/-- Witness for claim C8 at the initial state of a one-worker ordered
run. -/
theorem ordered_queue_bounded_witness :
    (OSt.queue ⟨0, [], none, [], []⟩).length ≤ WaitingMultiplier * 1 ∧
    oRunnerQueueCap 1 = 4 * 1 ∧
    runnerChanCap 1 = 1 :=
  ordered_queue_bounded 1 0 ⟨0, [], none, [], []⟩ Relation.ReflTransGen.refl

end Gargs
